import Mathlib

/-!
Verification of the mininip INI parser/encoder (Rust) against its
natural-language specification.

Strings are modelled as `List Char` (Rust `&str`/`String` are sequences of
Unicode scalar values; Lean `Char` is exactly a Unicode scalar value).
Byte indices and byte lengths, which the Rust code manipulates through
`str::len`, `str::find` and slicing, are modelled through `Char.utf8Size`
(identical to Rust `char::len_utf8`).

Rust panics (`panic!`, failed `assert!`) are modelled explicitly by a
dedicated result constructor.
-/

namespace Mininip

abbrev Str := List Char

/-- UTF-8 byte length of a string: models Rust `str::len`. -/
def utf8Len (s : Str) : Nat := (s.map Char.utf8Size).sum

/-- Models Rust `char::is_ascii`: the code point is at most 0x7f. -/
def rustIsAscii (c : Char) : Bool := c.toNat ≤ 0x7f

/-- Models Rust `char::is_whitespace`: the Unicode White_Space property. -/
def rustIsWhitespace (c : Char) : Bool :=
  c = ' ' || c = '\t' || c = '\n' || c = '\x0b' || c = '\x0c' || c = '\r' ||
  c = '\u0085' || c = '\u00A0' || c = '\u1680' ||
  ('\u2000' ≤ c && c ≤ '\u200A') ||
  c = '\u2028' || c = '\u2029' || c = '\u202F' || c = '\u205F' || c = '\u3000'

/-- Models Rust `str::trim_start`. -/
def trimStart (s : Str) : Str := s.dropWhile rustIsWhitespace

/-- Models Rust `str::trim_end`. -/
def trimEnd (s : Str) : Str := (trimStart s.reverse).reverse

/-- Models Rust `str::trim`. -/
def rustTrim (s : Str) : Str := trimEnd (trimStart s)

/-- Byte-position-annotated characters: models Rust `str::char_indices`. -/
def charIndicesFrom (pos : Nat) : Str → List (Nat × Char)
  | [] => []
  | c :: t => (pos, c) :: charIndicesFrom (pos + c.utf8Size) t

def charIndices (s : Str) : List (Nat × Char) := charIndicesFrom 0 s

/-- Byte index of the first occurrence of `c`: models Rust `str::find(char)`. -/
def findChar (c : Char) (s : Str) : Option Nat :=
  ((charIndices s).find? (fun p => p.2 = c)).map Prod.fst

/-- Byte index of the first whitespace character: models Rust
`str::find(char::is_whitespace)`. -/
def findWhitespace (s : Str) : Option Nat :=
  ((charIndices s).find? (fun p => rustIsWhitespace p.2)).map Prod.fst

/-- Keep the first `n` bytes: models Rust slicing `&s[..n]`. All call sites
pass a character boundary (a byte index returned by `find`). -/
def takeBytes : Nat → Str → Str
  | 0, _ => []
  | _, [] => []
  | n, c :: t => if c.utf8Size ≤ n then c :: takeBytes (n - c.utf8Size) t else []

/-- Drop the first `n` bytes: models Rust slicing `&s[n..]`. All call sites
pass a character boundary. -/
def dropBytes : Nat → Str → Str
  | 0, s => s
  | _, [] => []
  | n, c :: t => if c.utf8Size ≤ n then dropBytes (n - c.utf8Size) t else t

/-! ## The escape codec: src/dump/mod.rs `dump_str` (encoder) -/

/-- The 13 special-character match arms of `dump_str`
(src/dump/mod.rs lines 26-39), in source order: each maps a special
character to the character following the backslash in its two-character
escape sequence. -/
def DUMP_TABLE : List (Char × Char) :=
  [('\\', '\\'), ('\'', '\''), ('"', '"'), ('\x00', '0'), ('\x07', 'a'),
   ('\x08', 'b'), ('\t', 't'), ('\r', 'r'), ('\n', 'n'), (';', ';'),
   ('#', '#'), ('=', '='), (':', ':')]

/-- Resolution of a character against the ordered match arms of `dump_str`
(src/dump/mod.rs lines 26-39). -/
def specialDump (c : Char) : Option Char :=
  (DUMP_TABLE.find? (fun p => p.1 = c)).map Prod.snd

/-- Models Rust `format!("{:06x}", n)` (src/dump/mod.rs line 45) for
`n < 16^6`: six lowercase hexadecimal digits, zero-padded. Every argument
passed by `dump_str` is a Unicode scalar value, hence below
`0x110000 < 16^6`, so the width specifier always yields exactly six digits. -/
def hex6 (n : Nat) : Str :=
  [Nat.digitChar (n / 16 ^ 5 % 16), Nat.digitChar (n / 16 ^ 4 % 16),
   Nat.digitChar (n / 16 ^ 3 % 16), Nat.digitChar (n / 16 ^ 2 % 16),
   Nat.digitChar (n / 16 % 16), Nat.digitChar (n % 16)]

/-- One iteration of the `dump_str` loop (src/dump/mod.rs lines 24-47):
a special character becomes its two-character escape, any other ASCII
character is left unchanged, a non-ASCII character becomes `\xHHHHHH`. -/
def dumpChar (c : Char) : Str :=
  match specialDump c with
  | some e => ['\\', e]
  | none => if rustIsAscii c then [c] else '\\' :: 'x' :: hex6 c.toNat

/-- src/dump/mod.rs `dump_str` (lines 21-50). -/
def dump_str (content : Str) : Str := content.flatMap dumpChar

/-! ## The tokenizer: src/parse/mod.rs `TokenIterator` -/

/-- src/parse/mod.rs `Token` (lines 77-80). -/
inductive Token where
  | char (c : Char)
  | escape (s : Str)
deriving DecidableEq, Repr

/-- The loop body of `TokenIterator::next` (src/parse/mod.rs lines 104-135),
with the `escape_seq` buffer made an explicit argument; returns the whole
token sequence instead of one token per call. Note that
`self.escape_seq.len() < 8` in the source is a byte length. -/
def tokenizeAux : Str → Str → List Token
  | esc, [] => if esc = [] then [] else [.escape esc]
  | esc, c :: rest =>
    if esc = [] then
      if c = '\\' then tokenizeAux [c] rest
      else .char c :: tokenizeAux [] rest
    else
      let esc' := esc ++ [c]
      if esc'.take 2 = ['\\', 'x'] ∧ utf8Len esc' < 8 then tokenizeAux esc' rest
      else .escape esc' :: tokenizeAux [] rest

/-- The token sequence produced by `TokenIterator::from(content.chars())`
(src/parse/mod.rs lines 92-99): the buffer starts empty. -/
def tokenize (content : Str) : List Token := tokenizeAux [] content

/-! ## The escape codec: src/parse/mod.rs `parse_str` (decoder) -/

deriving instance DecidableEq for Except

/-- src/parse/mod.rs line 24: the 12 characters that may not appear raw. -/
def FORBIDDEN : List Char :=
  ['\x07', '\x08', '\t', '\r', '\n', '\x00', '\\', '\'', '"', ';', ':', '=']

/-- Models Rust `char::to_digit(16)`: hexadecimal digits of either case. -/
def hexDigitVal (c : Char) : Option Nat :=
  if '0' ≤ c ∧ c ≤ '9' then some (c.toNat - '0'.toNat)
  else if 'a' ≤ c ∧ c ≤ 'f' then some (c.toNat - 'a'.toNat + 10)
  else if 'A' ≤ c ∧ c ≤ 'F' then some (c.toNat - 'A'.toNat + 10)
  else none

/-- Modelled from Rust core: `u32::from_str_radix(s, 16)` (called at
src/parse/mod.rs line 57; the function itself is standard-library code, not
part of this repository). An optional leading `+`, then a nonempty run of
hexadecimal digits of either case; fails on any other character and on
overflow past `u32::MAX`. -/
def radixFoldAccum (digits : Str) : Option Nat :=
  digits.foldl
    (fun acc c => do
      let a ← acc
      let d ← hexDigitVal c
      let v := a * 16 + d
      if v < 2 ^ 32 then some v else none)
    (some 0)

def fromStrRadix16 (s : Str) : Option Nat :=
  match s with
  | [] => none
  | c :: rest =>
    let digits := if c = '+' then rest else c :: rest
    if digits = [] then none else radixFoldAccum digits

/-- Models Rust `std::char::from_u32` (src/parse/mod.rs line 61): `some`
exactly on Unicode scalar values (below 0x110000 and not a surrogate). -/
def charFromU32 (n : Nat) : Option Char :=
  if 0xd800 ≤ n ∧ n < 0xe000 then none
  else if 0x110000 ≤ n then none
  else some (Char.ofNat n)

/-- The 12 two-character string match arms of `parse_str`
(src/parse/mod.rs lines 39-51), in source order. There is no `\#` arm. -/
def PARSE_TABLE : List (Str × Char) :=
  [(['\\', 'a'], '\x07'), (['\\', 'b'], '\x08'), (['\\', 't'], '\t'),
   (['\\', 'r'], '\r'), (['\\', 'n'], '\n'), (['\\', '0'], '\x00'),
   (['\\', '\\'], '\\'), (['\\', '\''], '\''), (['\\', '"'], '"'),
   (['\\', ';'], ';'), (['\\', ':'], ':'), (['\\', '='], '=')]

/-- The `match escape.as_str()` of `parse_str` (src/parse/mod.rs lines
39-69), giving the character an escape token decodes to. The source's
two-character string patterns (`PARSE_TABLE`) are matched in order, then
the byte-length-8 guard, then the failure arm. The byte slice `&escape[2..]`
of the length-8 arm is boundary-safe there because every tokenizer escape of
byte length 8 starts with the two ASCII characters `\x` (the
`debug_assert!` of line 54). -/
def decodeEscape (esc : Str) : Except Unit Char :=
  match (PARSE_TABLE.find? (fun p => p.1 = esc)).map Prod.snd with
  | some c => .ok c
  | none =>
  if utf8Len esc = 8 then
    match fromStrRadix16 (dropBytes 2 esc) with
    | none => .error ()
    | some code =>
      match charFromU32 code with
      | none => .error ()
      | some character => .ok character
  else .error ()

/-- The token-consuming loop of `parse_str` (src/parse/mod.rs lines 26-70):
a `Char` token must not be FORBIDDEN and is copied verbatim, an `Escape`
token is resolved through the escape table. -/
def parseTokens : List Token → Except Unit Str
  | [] => .ok []
  | .char c :: rest =>
    if c ∈ FORBIDDEN then .error ()
    else (parseTokens rest).map (c :: ·)
  | .escape e :: rest =>
    match decodeEscape e with
    | .error () => .error ()
    | .ok c => (parseTokens rest).map (c :: ·)

/-- src/parse/mod.rs `parse_str` (lines 14-73): reject any non-ASCII scalar,
then tokenize and decode. -/
def parse_str (content : Str) : Except Unit Str :=
  if content.any (fun c => !rustIsAscii c) then .error ()
  else parseTokens (tokenize content)

/-! ## Data model: src/datas/mod.rs -/

/-- src/datas/mod.rs `Identifier` (lines 84-88). The field `sect` models the
source's `section` field (`section` is a Lean keyword). -/
structure Identifier where
  sect : Option Str
  name : Str
deriving DecidableEq, Repr

/-- Models Rust `char::is_alphabetic` on ASCII input (`Identifier::is_valid`
only evaluates it after `char::is_ascii` has succeeded, and on ASCII the
Unicode Alphabetic property is exactly the letters). -/
def asciiAlpha (c : Char) : Bool :=
  ('a' ≤ c && c ≤ 'z') || ('A' ≤ c && c ≤ 'Z')

/-- Models Rust `char::is_alphanumeric` on ASCII input. -/
def asciiAlnum (c : Char) : Bool := asciiAlpha c || ('0' ≤ c && c ≤ '9')

/-- src/datas/mod.rs `Identifier::is_valid` (lines 124-146): the trimmed
string must be nonempty, start with an ASCII alphabetic character and
continue with ASCII alphanumeric characters or underscores. -/
def Identifier.is_valid (ident : Str) : Bool :=
  match rustTrim ident with
  | [] => false
  | c :: rest =>
    if !rustIsAscii c || !asciiAlpha c then false
    else rest.all (fun i => rustIsAscii i && (asciiAlnum i || i = '_'))

/-- src/datas/mod.rs `Value` (lines 18-20): the single string variant.
src/parse/parser/mod.rs line 86 names this variant `Value::Str`, a
historical name of the same single-field wrapper. -/
inductive Value where
  | Raw (content : Str)
deriving DecidableEq, Repr

/-- src/datas/mod.rs `Value::dump` (lines 75-79). -/
def Value.dump : Value → Str
  | .Raw string => dump_str string

/-! ## Positional errors: src/errors/mod.rs

Each constructor function of the source asserts its arguments and panics on
violation, so error construction is modelled with an explicit panic outcome.
The `ExpectedEscape` and `InvalidEscape` variants are never constructed by
the code under study and are not modelled. -/

/-- The variants of src/errors/mod.rs `Error` that the parser constructs,
with the fields their `error_kinds` structures store. `decodeError` is
modelled from the spec: it stands for "a decode failure propagates as the
corresponding error variant" (spec 4.3), the image of `parse_str`'s
`Err(())` under the `?` operator at src/parse/parser/mod.rs line 82 (the
`From` conversion itself is not among the given sources). -/
inductive IniErr where
  | expectedIdentifier (line : Str) (index : Nat)
  | expectedToken (line : Str) (index : Nat) (tokens : Str)
  | unexpectedToken (line : Str) (index : Nat) (token : Char)
  | invalidIdentifier (line : Str) (ident : Str)
  | decodeError
deriving DecidableEq, Repr

/-- Outcome of a fallible, panic-able computation. -/
inductive PRes (α : Type) where
  | ok (a : α)
  | err (e : IniErr)
  | panic
deriving DecidableEq, Repr

/-- Turns a constructed error value into the error outcome (the source's
`return Err(Error::...(...))`), propagating a construction panic. -/
def PRes.raise : PRes IniErr → PRes α
  | .ok e => .err e
  | .err e => .err e
  | .panic => .panic

def PRes.map (f : α → β) : PRes α → PRes β
  | .ok a => .ok (f a)
  | .err e => .err e
  | .panic => .panic

/-- src/errors/mod.rs `ExpectedIdentifier::new` (lines 60-67): asserts
`line.len() > index`. -/
def ExpectedIdentifier.new (line : Str) (index : Nat) : PRes IniErr :=
  if utf8Len line > index then .ok (.expectedIdentifier line index) else .panic

/-- src/errors/mod.rs `ExpectedToken::new` (lines 97-105): asserts
`line.len() > index`. -/
def ExpectedToken.new (line : Str) (index : Nat) (tokens : Str) : PRes IniErr :=
  if utf8Len line > index then .ok (.expectedToken line index tokens) else .panic

/-- The loop of src/errors/mod.rs `nth_char` (lines 268-277) together with
the trailing `assert_eq!(last_n, index)` (line 279): if the loop ends
without finding `index` among the byte positions the assertion fails,
because `last_n` is then either beyond `index` (already a panic inside the
loop) or the position of the last character, strictly below `index`. -/
def nthCharGo (index : Nat) : List (Nat × Char) → PRes Char
  | [] => .panic
  | (n, c) :: rest =>
    if n = index then .ok c
    else if n > index then .panic
    else nthCharGo index rest

/-- src/errors/mod.rs `nth_char` (lines 262-282): asserts
`string.len() > index`, then scans `char_indices` for the character whose
byte position is exactly `index`. -/
def nth_char (string : Str) (index : Nat) : PRes Char :=
  if utf8Len string > index then nthCharGo index (charIndices string) else .panic

/-- src/errors/mod.rs `UnexpectedToken::new` (lines 177-184): stores the
character at byte `index`, panicking through `nth_char` when `index` is not
a valid character position. -/
def UnexpectedToken.new (line : Str) (index : Nat) : PRes IniErr :=
  (nth_char line index).map (.unexpectedToken line index ·)

/-- Models Rust `str::find(&str)` (substring search, used by the asserts of
`InvalidIdentifier::new`): UTF-8 is self-synchronizing, so a byte-level
substring of well-formed text is exactly a character-level infix. -/
def isSubstringOf (needle hay : Str) : Bool :=
  hay.tails.any (fun t => needle.isPrefixOf t)

/-- src/errors/mod.rs `InvalidIdentifier::new` (lines 246-255): asserts that
`line` contains `identifier` and that `identifier` is invalid. -/
def InvalidIdentifier.new (line identifier : Str) : PRes IniErr :=
  if isSubstringOf identifier line then
    if !Identifier.is_valid identifier then .ok (.invalidIdentifier line identifier)
    else .panic
  else .panic

/-- src/datas/mod.rs `Identifier::new` (lines 95-105): asserts validity of
the section name (when present) and then of the name. -/
def Identifier.new (sect : Option Str) (name : Str) : PRes Identifier :=
  match sect with
  | some s =>
    if Identifier.is_valid s then
      if Identifier.is_valid name then .ok ⟨some s, name⟩ else .panic
    else .panic
  | none =>
    if Identifier.is_valid name then .ok ⟨none, name⟩ else .panic

/-! ## The line parser: src/parse/parser/mod.rs -/

/-- src/parse/parser/mod.rs `Parser` (lines 10-13). The `HashMap` is
modelled as an association list with unique keys in insertion order. The
field `vars` models the source's `variables` field (`variables` is a
reserved token in Lean). -/
structure Parser where
  vars : List (Identifier × Value)
  cur_section : Option Str
deriving DecidableEq, Repr

/-- src/parse/parser/mod.rs `Parser::new` (lines 17-22). -/
def Parser.new : Parser := ⟨[], none⟩

/-- Models `HashMap::insert`: replaces the value of an existing key,
otherwise adds the binding. -/
def insertVar (m : List (Identifier × Value)) (k : Identifier) (v : Value) :
    List (Identifier × Value) :=
  match m with
  | [] => [(k, v)]
  | (k', v') :: t => if k' = k then (k, v) :: t else (k', v') :: insertVar t k v

/-- Models `HashMap` lookup (indexing a key). -/
def lookupVar (m : List (Identifier × Value)) (k : Identifier) : Option Value :=
  match m with
  | [] => none
  | (k', v') :: t => if k' = k then some v' else lookupVar t k

/-- src/parse/parser/mod.rs `ignore_comment` (lines 154-176), with the slice
`&line[..end]` built directly: panics on a newline (`assert_ne!`), stops
before the first unescaped `;`, and treats a `\` as escaping the next
character for this scan only. -/
def ignoreCommentGo (escaped : Bool) : Str → PRes Str
  | [] => .ok []
  | c :: t =>
    if c = '\n' then .panic
    else if escaped then (ignoreCommentGo false t).map (c :: ·)
    else if c = '\\' then (ignoreCommentGo true t).map (c :: ·)
    else if c = ';' then .ok []
    else (ignoreCommentGo false t).map (c :: ·)

def ignore_comment (line : Str) : PRes Str := ignoreCommentGo false line

/-- The pure part of src/parse/parser/mod.rs `Parser::parse_assignment`
(lines 53-89): everything before the final `self.variables.insert`, which
only reads `self.cur_section`. Returns the key/value pair the method
inserts on success. -/
def assignEntry (cur_section : Option Str) (line : Str) : PRes (Identifier × Value) :=
  match findChar '=' line with
  | none =>
    let effective_line := trimStart line
    let leading_spaces := utf8Len line - utf8Len effective_line
    let end_of_ident := (findWhitespace effective_line).getD (utf8Len effective_line)
    PRes.raise (ExpectedToken.new line (end_of_ident + leading_spaces) ['='])
  | some equal =>
    let identifier := rustTrim (takeBytes equal line)
    match
      (if utf8Len line = equal + 1 then .ok []
       else (ignore_comment (dropBytes (equal + 1) line)).map rustTrim :
        PRes Str) with
    | .err e => .err e
    | .panic => .panic
    | .ok value =>
      if !Identifier.is_valid identifier then
        PRes.raise (InvalidIdentifier.new line identifier)
      else
        match parse_str value with
        | .error () => .err .decodeError
        | .ok v =>
          match Identifier.new cur_section identifier with
          | .ok id => .ok (id, Value.Raw v)
          | .err e => .err e
          | .panic => .panic

/-- Outcome of `Parser::parse_line` and its two helpers: the Rust methods
mutate `&mut self`, so the error outcome records the state at the moment of
the early return (the parser performs no mutation before an error, which
the embedding makes explicit and claim C9 asserts). -/
inductive LineResult where
  | ok (st : Parser)
  | err (e : IniErr) (st : Parser)
  | panic
deriving DecidableEq, Repr

/-- src/parse/parser/mod.rs `Parser::parse_assignment` (lines 53-89). -/
def Parser.parse_assignment (st : Parser) (line : Str) : LineResult :=
  match assignEntry st.cur_section line with
  | .ok (k, v) => .ok ⟨insertVar st.vars k v, st.cur_section⟩
  | .err e => .err e st
  | .panic => .panic

/-- The first loop of `Parser::parse_section` (lines 112-118): byte position
of the first `]` after the opening bracket, and the remaining annotated
characters the trailing-integrity loop will consume. -/
def findCloseBracket : List (Nat × Char) → Option (Nat × List (Nat × Char))
  | [] => none
  | (n, c) :: t => if c = ']' then some (n, t) else findCloseBracket t

/-- The trailing-integrity loop of `Parser::parse_section` (lines 134-143):
after the closing bracket only whitespace may precede a `;` or the end of
the line. The reported index adds `leading_spaces + 2 + sect.len()` to `n`,
although `n` is already an absolute byte position in the trimmed line. -/
def checkTrailing (line : Str) (leading_spaces : Nat) (sect : Str) :
    List (Nat × Char) → PRes Unit
  | [] => .ok ()
  | (n, i) :: t =>
    if i = ';' then .ok ()
    else if !rustIsWhitespace i then
      PRes.raise (UnexpectedToken.new line (leading_spaces + 2 + utf8Len sect + n))
    else checkTrailing line leading_spaces sect t

/-- The pure part of src/parse/parser/mod.rs `Parser::parse_section`
(lines 99-147): everything before the final `self.cur_section = ...`.
Returns the validated section name. -/
def parseSectionCore (line0 : Str) : PRes Str :=
  let line := trimStart line0
  let leading_spaces := utf8Len line0 - utf8Len line
  match charIndices line with
  | [] => .panic
  | (_, c0) :: iter =>
    if c0 ≠ '[' then .panic
    else
      let found := findCloseBracket iter
      let endIdx := (found.map Prod.fst).getD 0
      if endIdx = 0 then
        PRes.raise (ExpectedToken.new line (leading_spaces + 1) [']'])
      else if endIdx = 1 then
        PRes.raise (ExpectedIdentifier.new line (leading_spaces + 1))
      else
        let sect := takeBytes (endIdx - 1) (dropBytes 1 line)
        if !Identifier.is_valid sect then
          PRes.raise (InvalidIdentifier.new line sect)
        else
          match checkTrailing line leading_spaces sect ((found.map Prod.snd).getD []) with
          | .ok () => .ok sect
          | .err e => .err e
          | .panic => .panic

/-- src/parse/parser/mod.rs `Parser::parse_section` (lines 99-147). -/
def Parser.parse_section (st : Parser) (line : Str) : LineResult :=
  match parseSectionCore line with
  | .ok sect => .ok ⟨st.vars, some sect⟩
  | .err e => .err e st
  | .panic => .panic

/-- src/parse/parser/mod.rs `Parser::parse_line` (lines 38-46). -/
def Parser.parse_line (st : Parser) (line : Str) : LineResult :=
  let effective_line := trimStart line
  match effective_line.head? with
  | none => .ok st
  | some c =>
    if c = ';' then .ok st
    else if c = '[' then st.parse_section effective_line
    else st.parse_assignment effective_line


/-! ## The dumper: src/dump/dumper/mod.rs -/

/-- src/dump/dumper/mod.rs `Dumper` (lines 12-14): a map from section name
to the list of generated lines, modelled as an association list with unique
keys in insertion order (the `HashMap` iteration order is immaterial:
`generate` sorts everything it emits). -/
structure Dumper where
  tree : List (Option Str × List Str)
deriving DecidableEq, Repr

/-- src/dump/dumper/mod.rs `Dumper::new` (lines 18-22). -/
def Dumper.new : Dumper := ⟨[]⟩

/-- The `hash_map::Entry` update of `Dumper::dump` (lines 32-35): push the
line onto an existing entry, otherwise insert a fresh one-line entry. -/
def treeInsert : List (Option Str × List Str) → Option Str → Str →
    List (Option Str × List Str)
  | [], k, line => [(k, [line])]
  | (k', v) :: t, k, line =>
    if k' = k then (k', v ++ [line]) :: t else (k', v) :: treeInsert t k line

/-- src/dump/dumper/mod.rs `Dumper::dump` (lines 25-36): format the line
`name=value.dump()` and record it under the identifier's section. -/
def Dumper.dump (d : Dumper) (identifier : Identifier) (value : Value) : Dumper :=
  ⟨treeInsert d.tree identifier.sect (identifier.name ++ '=' :: value.dump)⟩

/-- Models a `HashMap` key lookup on the association-list tree. -/
def lookupTree : List (Option Str × List Str) → Option Str → Option (List Str)
  | [], _ => none
  | (k', v) :: t, k => if k' = k then some v else lookupTree t k

/-- Models `Vec<String>::sort` (src/dump/dumper/mod.rs lines 47, 52, 68):
Rust compares `String`s bytewise, and UTF-8 byte order coincides with the
code-point lexicographic order on character sequences. Any sorting
algorithm gives the same result here because equal strings are
interchangeable, so the output list is determined by the multiset. -/
def sortStrs (l : List Str) : List Str := List.insertionSort (· ≤ ·) l

/-- The `for` loops of `Dumper::generate` that emit one line plus a newline
per entry (lines 53-56 and 69-72). -/
def joinLines (ls : List Str) : Str := ls.flatMap (fun l => l ++ ['\n'])

/-- src/dump/dumper/mod.rs `Dumper::generate` (lines 39-79): the sorted
global-section block (followed by a blank line) when present, then each
named section in sorted order as a `[name]` header plus its sorted lines
plus a blank line; the final `result.pop()` drops the last character. The
`.expect` of line 67 cannot fail (every collected section name is a tree
key) and is modelled by a default. -/
def Dumper.generate (d : Dumper) : Str :=
  ((match lookupTree d.tree none with
    | some val => joinLines (sortStrs val) ++ ['\n']
    | none => []) ++
   (sortStrs (d.tree.filterMap Prod.fst)).flatMap (fun i =>
    '[' :: i ++ ']' :: '\n' ::
      joinLines (sortStrs ((lookupTree d.tree (some i)).getD [])) ++ ['\n'])).dropLast

/-- Feeding a list of entries to a fresh `Dumper` through `Dumper::dump`
(the loop of src/dump/dumper/mod.rs `dump_into_file`, lines 92-94). -/
def Dumper.feed (entries : List (Identifier × Value)) : Dumper :=
  entries.foldl (fun d e => d.dump e.1 e.2) Dumper.new

/-! ## Declarative descriptions of the generated document (spec side) -/

/-- The serialized line of one entry: `name=encoded_value`. -/
def entryLine (e : Identifier × Value) : Str := e.1.name ++ '=' :: e.2.dump

/-- One `Dumper::dump` step seen at the tree level. -/
def treeStep (t : List (Option Str × List Str)) (e : Identifier × Value) :
    List (Option Str × List Str) :=
  treeInsert t e.1.sect (entryLine e)

/-- First occurrence of each element, in input order. -/
def dedupFirst (l : List (Option Str)) : List (Option Str) :=
  l.foldl (fun acc k => if k ∈ acc then acc else acc ++ [k]) []

/-- The distinct section names of a list of entries. -/
def sectionNamesOf (entries : List (Identifier × Value)) : List Str :=
  (dedupFirst (entries.map (fun e => e.1.sect))).filterMap id

/-- The document layout with each block's entries sorted by their whole
serialized line (what `generate` produces; claim C5 as amended): sorted
global lines, a blank line (when a global entry exists), then each named
section in ascending order with its sorted lines, without the final
newline. -/
def generatedByLine (entries : List (Identifier × Value)) : Str :=
  ((if (entries.filter (fun e => e.1.sect = none)).map entryLine = [] then []
    else joinLines (sortStrs ((entries.filter (fun e => e.1.sect = none)).map entryLine)) ++ ['\n']) ++
   (sortStrs (sectionNamesOf entries)).flatMap (fun s =>
    '[' :: s ++ ']' :: '\n' ::
      joinLines (sortStrs ((entries.filter (fun e => e.1.sect = some s)).map entryLine)) ++ ['\n'])).dropLast

/-- The document layout claim C5 states, with each block's entries sorted
by identifier name (spec 6: "sorted by identifier name"): written from the
spec's words, to be compared with `Dumper.generate`. -/
def generatedByName (entries : List (Identifier × Value)) : Str :=
  ((if List.insertionSort (fun a b : Identifier × Value => a.1.name ≤ b.1.name)
        (entries.filter (fun e => e.1.sect = none)) = [] then []
    else joinLines ((List.insertionSort (fun a b : Identifier × Value => a.1.name ≤ b.1.name)
        (entries.filter (fun e => e.1.sect = none))).map entryLine) ++ ['\n']) ++
   (sortStrs (sectionNamesOf entries)).flatMap (fun s =>
    '[' :: s ++ ']' :: '\n' ::
      joinLines ((List.insertionSort (fun a b : Identifier × Value => a.1.name ≤ b.1.name)
        (entries.filter (fun e => e.1.sect = some s))).map entryLine) ++ ['\n'])).dropLast


/-! ## Helper notions used by the statements of the claims -/

/-- Concatenation of the text of a token stream: the single character of a
`Char` token, the raw buffer of an `Escape` token. -/
def tokensText : List Token → Str
  | [] => []
  | .char c :: t => c :: tokensText t
  | .escape e :: t => e ++ tokensText t

/-- Per-token decoding, written independently of `parseTokens`: a `Char`
token is copied verbatim unless forbidden, an `Escape` token resolves
through the escape table. -/
def decodeTok : Token → Option Str
  | .char c => if c ∈ FORBIDDEN then none else some [c]
  | .escape e =>
    match decodeEscape e with
    | .ok c => some [c]
    | .error () => none

/-- Decoding of a whole token stream, `none` as soon as one token fails. -/
def tokensDecode : List Token → Option Str
  | [] => some []
  | t :: ts => do
    let l ← decodeTok t
    let r ← tokensDecode ts
    pure (l ++ r)

/-- A lowercase hexadecimal digit, as the spec words it. -/
def isLowerHexDigit (c : Char) : Bool :=
  c ∈ ['a', 'b', 'c', 'd', 'e', 'f', '9', '8', '7', '6', '5', '4', '3', '2', '1', '0']

/-- Numeric value of a hexadecimal digit string (most significant first). -/
def hexValNat (ds : Str) : Nat :=
  ds.foldl (fun a c => a * 16 + (hexDigitVal c).getD 0) 0

/-- The token `dump_str`'s output owes to one input character: plain ASCII
characters pass through as `Char` tokens, everything else becomes an
`Escape` token. -/
def tokOf (c : Char) : Token :=
  if specialDump c = none ∧ rustIsAscii c then .char c else .escape (dumpChar c)

/-- The serialized lines of the entries under one section key, in entry
order. -/
def linesFor (k : Option Str) (entries : List (Identifier × Value)) : List Str :=
  (entries.filter (fun e => e.1.sect = k)).map entryLine

/-- Whether some entry carries the section key `k`. -/
def hasKey (k : Option Str) (entries : List (Identifier × Value)) : Bool :=
  entries.any (fun e => e.1.sect = k)

end Mininip

namespace Mininip

/-! ## Shared lemmas -/

theorem lookupVar_insertVar (m : List (Identifier × Value)) (k : Identifier) (v : Value) :
    lookupVar (insertVar m k v) k = some v := by
  induction m with
  | nil => simp [insertVar, lookupVar]
  | cons p t ih =>
    obtain ⟨k', v'⟩ := p
    by_cases hk : k' = k
    · simp [insertVar, lookupVar, hk]
    · simp [insertVar, lookupVar, hk, ih]

/-! ## Claims -/

/-- Claim C1 (code bug): the round-trip `parse_str (dump_str s) = Ok s`
fails at `s = "#"`: the encoder escapes `#` to the two-character sequence
`\#`, but the decoder's escape table has no `\#` arm, so decoding returns
an error instead of `Ok "#"`. -/
theorem c1_roundtrip_fails_on_hash :
    dump_str ['#'] = ['\\', '#'] ∧ parse_str (dump_str ['#']) = .error () := by
  decide

/-- Claim C3 (code bug): on a line with no `=` and no whitespace at all
(such as `abc`), `parse_assignment` computes the error position
`end_of_ident = line.len()` and `ExpectedToken::new` asserts
`line.len() > index`, so `Parser::parse_line` panics instead of returning
the claimed `ExpectedToken("=")` error. -/
theorem c3_panic_on_line_without_whitespace (st : Parser) :
    st.parse_line ['a', 'b', 'c'] = .panic := rfl

/-- Claim C4 (code bug): on `"[section] garbage"` the trailing-integrity
loop of `parse_section` reports the offset
`leading_spaces + 2 + section.len() + n` where `n` is already the absolute
byte position of the offending `g` (10), producing 19, beyond the line's
length 17; `UnexpectedToken::new`'s `nth_char` then panics instead of
returning the claimed `UnexpectedToken` error at offset 10. -/
theorem c4_panic_on_section_trailing_garbage (st : Parser) :
    st.parse_line
      ['[', 's', 'e', 'c', 't', 'i', 'o', 'n', ']', ' ',
       'g', 'a', 'r', 'b', 'a', 'g', 'e'] = .panic := rfl

/-- Claim C2, counterexample: the claim states that the decoder resolves
`\#` to `#`; it actually fails on it (the decoder's table has no `\#`
arm). -/
theorem c2_counterexample :
    decodeEscape ['\\', '#'] = .error () ∧ parse_str ['\\', '#'] = .error () := by
  decide

/-- Claim C6: for every parser state and every pair of successfully parsed
lines the second of which is an assignment inserting the pair `(k, v)`, the
final table is the previous table with `k` overwritten to `v`, so the value
stored under `k` is the one from the later line and no duplicate-key error
is raised. -/
theorem c6_last_write_wins (st st1 st2 : Parser) (l1 l2 : Str)
    (k : Identifier) (v : Value)
    (h1 : st.parse_line l1 = .ok st1)
    (hc : ∃ c, (trimStart l2).head? = some c ∧ c ≠ ';' ∧ c ≠ '[')
    (h2 : st1.parse_line l2 = .ok st2)
    (h3 : assignEntry st1.cur_section (trimStart l2) = .ok (k, v)) :
    st2.vars = insertVar st1.vars k v ∧ lookupVar st2.vars k = some v := by
  obtain ⟨c, hhead, hsemi, hbr⟩ := hc
  simp only [Parser.parse_line] at h2
  rw [hhead] at h2
  simp only [hsemi, hbr, if_false] at h2
  unfold Parser.parse_assignment at h2
  rw [h3] at h2
  cases h2
  exact ⟨rfl, lookupVar_insertVar _ _ _⟩

/-- Witness for C6 at the spec's own example: `"a=1"` then `"a=2"` in the
global section leaves `a` bound to `"2"`. -/
theorem c6_last_write_wins_witness :
    (Parser.mk [] none).parse_line ['a', '=', '1'] =
      .ok ⟨[(⟨none, ['a']⟩, .Raw ['1'])], none⟩ ∧
    (Parser.mk [(⟨none, ['a']⟩, .Raw ['1'])] none).parse_line ['a', '=', '2'] =
      .ok ⟨[(⟨none, ['a']⟩, .Raw ['2'])], none⟩ ∧
    lookupVar [(⟨none, ['a']⟩, Value.Raw ['2'])] ⟨none, ['a']⟩ = some (.Raw ['2']) :=
  ⟨by decide, by decide,
    (c6_last_write_wins ⟨[], none⟩ ⟨[(⟨none, ['a']⟩, .Raw ['1'])], none⟩
      ⟨[(⟨none, ['a']⟩, .Raw ['2'])], none⟩ ['a', '=', '1'] ['a', '=', '2']
      ⟨none, ['a']⟩ (.Raw ['2']) (by decide)
      ⟨'a', by decide, by decide, by decide⟩ (by decide) (by decide)).2⟩

/-- Claim C9: whenever `Parser::parse_line` returns an error, the parser
state (accumulated table and current section) is exactly what it was before
the call: no mutation precedes any error return in the source. -/
theorem c9_error_preserves_state (st : Parser) (l : Str) (e : IniErr) (st' : Parser)
    (h : st.parse_line l = .err e st') : st' = st := by
  simp only [Parser.parse_line] at h
  cases hh : (trimStart l).head? with
  | none => rw [hh] at h; exact absurd h (by simp)
  | some c =>
    rw [hh] at h
    by_cases hs : c = ';'
    · simp [hs] at h
    · simp only [hs, if_false] at h
      by_cases hb : c = '['
      · simp only [hb, if_true] at h
        unfold Parser.parse_section at h
        cases hq : parseSectionCore (trimStart l) <;> rw [hq] at h <;>
          simp_all
      · simp only [hb, if_false] at h
        unfold Parser.parse_assignment at h
        cases hq : assignEntry st.cur_section (trimStart l) with
        | ok p => rw [hq] at h; obtain ⟨k, v⟩ := p; simp_all
        | err e2 => rw [hq] at h; simp_all
        | panic => rw [hq] at h; simp_all

/-- Witness for C9 at a concrete failing line: `"ident=abc=123"` (the raw
`=` in the value is rejected) leaves the fresh state unchanged. -/
theorem c9_error_preserves_state_witness :
    (Parser.mk [] none).parse_line
      ['i', 'd', 'e', 'n', 't', '=', 'a', 'b', 'c', '=', '1', '2', '3'] =
      .err .decodeError ⟨[], none⟩ ∧ (Parser.mk [] none : Parser) = ⟨[], none⟩ :=
  ⟨by decide,
    c9_error_preserves_state ⟨[], none⟩
      ['i', 'd', 'e', 'n', 't', '=', 'a', 'b', 'c', '=', '1', '2', '3']
      .decodeError ⟨[], none⟩ (by decide)⟩


/-! ## The tokenizer is lossless -/

theorem tokensText_tokenizeAux (s : Str) : ∀ esc : Str,
    tokensText (tokenizeAux esc s) = esc ++ s := by
  induction s with
  | nil =>
    intro esc
    by_cases h : esc = [] <;> simp [tokenizeAux, tokensText, h]
  | cons c t ih =>
    intro esc
    by_cases h : esc = []
    · subst h
      by_cases hc : c = '\\'
      · subst hc
        simp only [tokenizeAux, if_pos rfl, reduceIte]
        simpa using ih ['\\']
      · simp [tokenizeAux, hc, tokensText, ih]
    · simp only [tokenizeAux, h, if_false, reduceIte]
      split
      · simpa using ih (esc ++ [c])
      · simp [tokensText, ih]

/-- Claim C10: the tokenizer is lossless: concatenating the yielded
tokens' text (the character of each `Char` token, the raw buffer of each
`Escape` token, including a final unterminated buffer) reconstructs the
input exactly. -/
theorem c10_tokenizer_lossless (s : Str) : tokensText (tokenize s) = s := by
  simpa using tokensText_tokenizeAux s []


/-! ## What the tokenizer does to encoder output -/

theorem specialDump_props {c e : Char} (h : specialDump c = some e) :
    e ≠ 'x' ∧ rustIsAscii e = true ∧ rustIsAscii c = true := by
  have htab : ∀ p ∈ DUMP_TABLE,
      p.2 ≠ 'x' ∧ rustIsAscii p.2 = true ∧ rustIsAscii p.1 = true := by decide
  unfold specialDump at h
  cases hf : DUMP_TABLE.find? (fun p => p.1 = c) with
  | none => rw [hf] at h; exact absurd h (by simp)
  | some p =>
    rw [hf] at h
    injection h with he
    have hpc := List.find?_some hf
    have hmem := List.mem_of_find?_eq_some hf
    simp only [decide_eq_true_eq] at hpc
    obtain ⟨h1, h2, h3⟩ := htab p hmem
    rw [he] at h1 h2
    rw [hpc] at h3
    exact ⟨h1, h2, h3⟩

theorem specialDump_none_not_forbidden {c : Char} (h : specialDump c = none) :
    c ∉ FORBIDDEN := by
  intro hmem
  have hforb : ∀ x ∈ FORBIDDEN, (specialDump x).isSome = true := by decide
  have hs := hforb c hmem
  rw [h] at hs
  exact absurd hs (by decide)

theorem digitChar_lt16 : ∀ m : Nat, m < 16 →
    isLowerHexDigit (Nat.digitChar m) = true ∧ (Nat.digitChar m).utf8Size = 1 ∧
    rustIsAscii (Nat.digitChar m) = true := by decide

theorem hex6_mem {n : Nat} : ∀ d ∈ hex6 n,
    isLowerHexDigit d = true ∧ d.utf8Size = 1 ∧ rustIsAscii d = true := by
  intro d hd
  simp only [hex6, List.mem_cons, List.not_mem_nil, or_false] at hd
  rcases hd with h | h | h | h | h | h <;>
    (rw [h]; exact digitChar_lt16 _ (Nat.mod_lt _ (by omega)))

theorem tokenizeAux_step_start (c : Char) (rest : Str) :
    tokenizeAux [] (c :: rest) =
      if c = '\\' then tokenizeAux [c] rest
      else .char c :: tokenizeAux [] rest := rfl

theorem tokenizeAux_step_acc (a : Char) (esc : Str) (c : Char) (rest : Str) :
    tokenizeAux (a :: esc) (c :: rest) =
      if ((a :: esc) ++ [c]).take 2 = ['\\', 'x'] ∧ utf8Len ((a :: esc) ++ [c]) < 8 then
        tokenizeAux ((a :: esc) ++ [c]) rest
      else .escape ((a :: esc) ++ [c]) :: tokenizeAux [] rest := rfl

theorem tokenizeAux_escape_two (e : Char) (he : e ≠ 'x') (s : Str) :
    tokenizeAux [] ('\\' :: e :: s) = .escape ['\\', e] :: tokenizeAux [] s := by
  rw [tokenizeAux_step_start, if_pos rfl, tokenizeAux_step_acc, if_neg]
  · rfl
  · simp [he]

theorem tokenizeAux_escape_hex (ds : Str) (h6 : ds.length = 6)
    (hall : ∀ d ∈ ds, d.utf8Size = 1) (s : Str) :
    tokenizeAux [] ('\\' :: 'x' :: (ds ++ s)) =
      .escape ('\\' :: 'x' :: ds) :: tokenizeAux [] s := by
  match ds, h6 with
  | [a, b, c, d, e, f], _ =>
    have ha := hall a (by simp)
    have hb := hall b (by simp)
    have hc := hall c (by simp)
    have hd := hall d (by simp)
    have he := hall e (by simp)
    have hf := hall f (by simp)
    have hbsl : ('\\' : Char).utf8Size = 1 := rfl
    have hx : ('x' : Char).utf8Size = 1 := rfl
    rw [show ('\\' :: 'x' :: ([a, b, c, d, e, f] ++ s)) =
        '\\' :: 'x' :: a :: b :: c :: d :: e :: f :: s by simp]
    rw [tokenizeAux_step_start, if_pos rfl]
    rw [tokenizeAux_step_acc,
      if_pos (by refine ⟨rfl, ?_⟩; simp [utf8Len, hbsl, hx])]
    rw [show (['\\'] ++ ['x'] : Str) = ['\\', 'x'] by simp]
    rw [tokenizeAux_step_acc,
      if_pos (by refine ⟨rfl, ?_⟩; simp [utf8Len, hbsl, hx, ha])]
    rw [show (['\\', 'x'] ++ [a] : Str) = ['\\', 'x', a] by simp]
    rw [tokenizeAux_step_acc,
      if_pos (by refine ⟨rfl, ?_⟩; simp [utf8Len, hbsl, hx, ha, hb])]
    rw [show (['\\', 'x', a] ++ [b] : Str) = ['\\', 'x', a, b] by simp]
    rw [tokenizeAux_step_acc,
      if_pos (by refine ⟨rfl, ?_⟩; simp [utf8Len, hbsl, hx, ha, hb, hc])]
    rw [show (['\\', 'x', a, b] ++ [c] : Str) = ['\\', 'x', a, b, c] by simp]
    rw [tokenizeAux_step_acc,
      if_pos (by refine ⟨rfl, ?_⟩; simp [utf8Len, hbsl, hx, ha, hb, hc, hd])]
    rw [show (['\\', 'x', a, b, c] ++ [d] : Str) = ['\\', 'x', a, b, c, d] by simp]
    rw [tokenizeAux_step_acc,
      if_pos (by refine ⟨rfl, ?_⟩; simp [utf8Len, hbsl, hx, ha, hb, hc, hd, he])]
    rw [show (['\\', 'x', a, b, c, d] ++ [e] : Str) = ['\\', 'x', a, b, c, d, e] by simp]
    rw [tokenizeAux_step_acc,
      if_neg (by simp [utf8Len, hbsl, hx, ha, hb, hc, hd, he, hf])]
    simp

theorem tokenize_dumpChar (c : Char) (s : Str) :
    tokenizeAux [] (dumpChar c ++ s) = tokOf c :: tokenizeAux [] s := by
  cases hsd : specialDump c with
  | some e =>
    obtain ⟨hex, -, -⟩ := specialDump_props hsd
    have hdc : dumpChar c = ['\\', e] := by simp [dumpChar, hsd]
    have htok : tokOf c = .escape ['\\', e] := by simp [tokOf, hsd, hdc]
    rw [hdc, htok]
    exact tokenizeAux_escape_two e hex s
  | none =>
    by_cases ha : rustIsAscii c
    · have hdc : dumpChar c = [c] := by simp [dumpChar, hsd, ha]
      have htok : tokOf c = .char c := by simp [tokOf, hsd, ha]
      have hbs : c ≠ '\\' := by
        intro hh; subst hh; exact absurd hsd (by decide)
      rw [hdc, htok, List.singleton_append, tokenizeAux_step_start, if_neg hbs]
    · have hdc : dumpChar c = '\\' :: 'x' :: hex6 c.toNat := by
        simp [dumpChar, hsd, ha]
      have htok : tokOf c = .escape ('\\' :: 'x' :: hex6 c.toNat) := by
        simp [tokOf, hsd, ha, hdc]
      rw [hdc, htok]
      exact tokenizeAux_escape_hex (hex6 c.toNat) rfl
        (fun d hd => (hex6_mem d hd).2.1) s

theorem tokenize_dump_str (s : Str) : tokenize (dump_str s) = s.map tokOf := by
  induction s with
  | nil => rfl
  | cons c t ih =>
    show tokenizeAux [] (dumpChar c ++ dump_str t) = tokOf c :: t.map tokOf
    rw [tokenize_dumpChar, ← ih]
    rfl

/-- Claim C7: the encoder is total (a Lean function) and its output is pure
ASCII; every non-ASCII scalar is rendered as backslash-x followed by exactly
6 lowercase hexadecimal digits of its code point; and no character of the
encoder's special table (the format's structural characters) ever comes out
of the tokenizer as an unescaped `Char` token of the output. -/
theorem c7_encode_ascii_structural_free (s : Str) :
    (∀ c ∈ dump_str s, rustIsAscii c = true) ∧
    (∀ c ∈ s, rustIsAscii c = false →
      dumpChar c = '\\' :: 'x' :: hex6 c.toNat ∧ (hex6 c.toNat).length = 6 ∧
      ∀ d ∈ hex6 c.toNat, isLowerHexDigit d = true) ∧
    (∀ c : Char, Token.char c ∈ tokenize (dump_str s) →
      rustIsAscii c = true ∧ specialDump c = none) := by
  refine ⟨?_, ?_, ?_⟩
  · intro c hc
    simp only [dump_str, List.mem_flatMap] at hc
    obtain ⟨a, -, hmem⟩ := hc
    unfold dumpChar at hmem
    cases hsd : specialDump a with
    | some e =>
      obtain ⟨-, he, ha⟩ := specialDump_props hsd
      rw [hsd] at hmem
      simp only [List.mem_cons, List.not_mem_nil, or_false] at hmem
      rcases hmem with rfl | rfl
      · decide
      · exact he
    | none =>
      rw [hsd] at hmem
      by_cases ha : rustIsAscii a
      · simp only [ha, reduceIte, List.mem_singleton] at hmem
        subst hmem; exact ha
      · simp only [ha, Bool.false_eq_true, reduceIte, List.mem_cons] at hmem
        rcases hmem with rfl | rfl | hmem
        · decide
        · decide
        · exact (hex6_mem c hmem).2.2
  · intro c _ hna
    have hsd : specialDump c = none := by
      cases hsd : specialDump c with
      | some e => exact absurd (specialDump_props hsd).2.2 (by simp [hna])
      | none => rfl
    refine ⟨by simp [dumpChar, hsd, hna], rfl, fun d hd => (hex6_mem d hd).1⟩
  · intro c hc
    rw [tokenize_dump_str] at hc
    simp only [List.mem_map] at hc
    obtain ⟨a, -, hta⟩ := hc
    unfold tokOf at hta
    by_cases h : specialDump a = none ∧ rustIsAscii a = true
    · rw [if_pos h] at hta
      cases hta
      exact ⟨h.2, h.1⟩
    · rw [if_neg h] at hta
      cases hta


/-! ## Decoder error conditions -/

theorem utf8Size_le_four (c : Char) : c.utf8Size ≤ 4 := by
  unfold Char.utf8Size
  dsimp only
  split_ifs <;> decide

theorem parseTokens_ok_iff (ts : List Token) : ∀ out : Str,
    parseTokens ts = .ok out ↔ tokensDecode ts = some out := by
  induction ts with
  | nil => intro out; simp [parseTokens, tokensDecode]
  | cons t ts ih =>
    intro out
    cases t with
    | char c =>
      by_cases hc : c ∈ FORBIDDEN
      · simp [parseTokens, tokensDecode, decodeTok, hc]
      · simp only [parseTokens, tokensDecode, decodeTok, hc, if_neg, reduceIte]
        cases hp : parseTokens ts with
        | error u =>
          cases u
          cases ho : tokensDecode ts with
          | none => simp [Except.map, Option.bind]
          | some r => exact absurd ((ih r).mpr ho) (by simp [hp])
        | ok r =>
          rw [(ih r).mp hp]
          simp [Except.map, Option.bind]
    | escape e =>
      cases hd : decodeEscape e with
      | error u =>
        cases u
        simp [parseTokens, tokensDecode, decodeTok, hd]
      | ok ch =>
        simp only [parseTokens, tokensDecode, decodeTok, hd]
        cases hp : parseTokens ts with
        | error u =>
          cases u
          cases ho : tokensDecode ts with
          | none => simp [Except.map, Option.bind]
          | some r => exact absurd ((ih r).mpr ho) (by simp [hp])
        | ok r =>
          rw [(ih r).mp hp]
          simp [Except.map, Option.bind]

theorem parseTokens_error_of_none (ts : List Token)
    (h : tokensDecode ts = none) : parseTokens ts = .error () := by
  cases hp : parseTokens ts with
  | ok out => exact absurd ((parseTokens_ok_iff ts out).mp hp) (by simp [h])
  | error u => cases u; rfl

theorem tokensDecode_none_of_forbidden (ts : List Token) (c : Char)
    (hc : c ∈ FORBIDDEN) (hm : Token.char c ∈ ts) : tokensDecode ts = none := by
  induction ts with
  | nil => simp at hm
  | cons t ts ih =>
    rcases List.mem_cons.mp hm with heq | hmem
    · rw [← heq]
      simp [tokensDecode, decodeTok, hc]
    · cases hdt : decodeTok t <;> simp [tokensDecode, hdt, ih hmem]

theorem any_nonascii_false {s : Str} (h : ∀ c ∈ s, rustIsAscii c = true) :
    (s.any fun c => !rustIsAscii c) = false := by
  simp only [List.any_eq_false, Bool.not_eq_true]
  intro c hc
  simp [h c hc]

/-- Claim C8: the decoder errors on any input containing a non-ASCII
scalar; it errors whenever one of the 12 forbidden raw characters appears
as an unescaped `Char` token; and on an input free of both (every token
decodes: `Char` tokens copied verbatim by `decodeTok`, escapes resolved) it
returns exactly the concatenation of the per-token decodings. -/
theorem c8_decode_error_conditions (s : Str) :
    ((∃ c ∈ s, rustIsAscii c = false) → parse_str s = .error ()) ∧
    ((∀ c ∈ s, rustIsAscii c = true) →
      ∀ c, c ∈ FORBIDDEN → Token.char c ∈ tokenize s → parse_str s = .error ()) ∧
    ((∀ c ∈ s, rustIsAscii c = true) → ∀ out, tokensDecode (tokenize s) = some out →
      parse_str s = .ok out) := by
  refine ⟨?_, ?_, ?_⟩
  · rintro ⟨c, hc, hna⟩
    have hny : (s.any fun c => !rustIsAscii c) = true :=
      List.any_eq_true.mpr ⟨c, hc, by simp [hna]⟩
    simp [parse_str, hny]
  · intro hall c hcf hm
    rw [parse_str, if_neg (by simp [any_nonascii_false hall])]
    exact parseTokens_error_of_none _ (tokensDecode_none_of_forbidden _ c hcf hm)
  · intro hall out hdec
    rw [parse_str, if_neg (by simp [any_nonascii_false hall])]
    exact (parseTokens_ok_iff _ _).mpr hdec

/-- Witness for C8: a non-ASCII input fails, a raw `=` fails, and a plain
ASCII input decodes verbatim. -/
theorem c8_decode_error_conditions_witness :
    parse_str ['é'] = .error () ∧ parse_str ['='] = .error () ∧
    parse_str ['h', 'i'] = .ok ['h', 'i'] :=
  ⟨(c8_decode_error_conditions ['é']).1 ⟨'é', by decide, by decide⟩,
   (c8_decode_error_conditions ['=']).2.1 (by decide) '=' (by decide) (by decide),
   (c8_decode_error_conditions ['h', 'i']).2.2 (by decide) ['h', 'i'] (by decide)⟩

/-- Witness for C7 (its second part carries hypotheses): the non-ASCII
scalar U+263A is rendered as backslash-x plus six lowercase hex digits. -/
theorem c7_encode_ascii_structural_free_witness :
    dumpChar '☺' = '\\' :: 'x' :: hex6 '☺'.toNat ∧ hex6 '☺'.toNat = ['0', '0', '2', '6', '3', 'a'] :=
  ⟨((c7_encode_ascii_structural_free ['☺']).2.1 '☺' (by decide) (by decide)).1,
   by decide⟩


/-! ## The decoder's escape resolution (claim C2) -/

theorem lowerHex_facts {d : Char} (h : isLowerHexDigit d = true) :
    d.utf8Size = 1 ∧ d ≠ '+' ∧ ∃ v, hexDigitVal d = some v ∧ v < 16 := by
  have htab : ∀ x ∈ ['a', 'b', 'c', 'd', 'e', 'f', '9', '8', '7', '6', '5',
      '4', '3', '2', '1', '0'],
      x.utf8Size = 1 ∧ x ≠ '+' ∧ (hexDigitVal x).isSome = true ∧
        (hexDigitVal x).getD 0 < 16 := by decide
  have hm : d ∈ ['a', 'b', 'c', 'd', 'e', 'f', '9', '8', '7', '6', '5',
      '4', '3', '2', '1', '0'] := by
    simpa [isLowerHexDigit] using h
  obtain ⟨h1, h2, h3, h4⟩ := htab d hm
  refine ⟨h1, h2, (hexDigitVal d).getD 0, ?_, h4⟩
  cases ho : hexDigitVal d with
  | none => rw [ho] at h3; exact absurd h3 (by decide)
  | some v => rfl

theorem radix_fold (ds : Str) : ∀ acc : Nat,
    (∀ d ∈ ds, ∃ v, hexDigitVal d = some v ∧ v < 16) →
    acc * 16 ^ ds.length + 16 ^ ds.length ≤ 2 ^ 32 →
    ds.foldl (fun acc c => do
        let a ← acc
        let d ← hexDigitVal c
        let v := a * 16 + d
        if v < 2 ^ 32 then some v else none) (some acc) =
      some (ds.foldl (fun a c => a * 16 + (hexDigitVal c).getD 0) acc) := by
  induction ds with
  | nil => intro acc _ _; rfl
  | cons d ds ih =>
    intro acc hall hbound
    obtain ⟨v, hv, hlt⟩ := hall d (by simp)
    have hp : 1 ≤ 16 ^ ds.length := Nat.one_le_pow _ _ (by omega)
    have hpow : (16 : Nat) ^ (ds.length + 1) = 16 ^ ds.length * 16 :=
      pow_succ 16 ds.length
    rw [List.length_cons, hpow] at hbound
    have hstep : (acc * 16 + v) * 16 ^ ds.length + 16 ^ ds.length ≤ 2 ^ 32 := by
      nlinarith
    have hsmall : acc * 16 + v < 2 ^ 32 := by nlinarith
    simp only [List.foldl_cons, hv, Option.bind_eq_bind, Option.some_bind,
      Option.getD_some, if_pos hsmall]
    exact ih (acc * 16 + v) (fun x hx => hall x (by simp [hx])) hstep

theorem sum_utf8_of_ones {ds : Str} (hsz : ∀ d ∈ ds, d.utf8Size = 1) :
    (ds.map Char.utf8Size).sum = ds.length := by
  induction ds with
  | nil => rfl
  | cons d ds ih =>
    simp only [List.map_cons, List.sum_cons, hsz d (by simp),
      ih (fun x hx => hsz x (by simp [hx])), List.length_cons]
    omega

/-- Claim C2, as amended: the decoder resolves exactly the 12 two-character
sequences of its table (resolving each to its character), fails on `\#`
(diverging from the encoder, which produces `\#` for `#`) and on every
other two-character sequence; it resolves backslash-x followed by exactly 6
lowercase hexadecimal digits to the denoted scalar, failing when the code
point is not a valid scalar value (it would also accept uppercase digits or
a leading `+`, as Rust `u32::from_str_radix` does); and it fails on every
escape whose byte length is neither 2 (in the table) nor 8. -/
theorem c2_escape_resolution :
    (∀ p ∈ PARSE_TABLE, decodeEscape p.1 = .ok p.2) ∧
    decodeEscape ['\\', '#'] = .error () ∧
    (∀ c : Char, (∀ p ∈ PARSE_TABLE, p.1 ≠ ['\\', c]) →
      decodeEscape ['\\', c] = .error ()) ∧
    (∀ ds : Str, ds.length = 6 → (∀ d ∈ ds, isLowerHexDigit d = true) →
      decodeEscape ('\\' :: 'x' :: ds) =
        match charFromU32 (hexValNat ds) with
        | some ch => .ok ch
        | none => .error ()) ∧
    (∀ esc : Str, (∀ p ∈ PARSE_TABLE, p.1 ≠ esc) → utf8Len esc ≠ 8 →
      decodeEscape esc = .error ()) := by
  have hgen : ∀ esc : Str, (∀ p ∈ PARSE_TABLE, p.1 ≠ esc) → utf8Len esc ≠ 8 →
      decodeEscape esc = .error () := by
    intro esc hnp hlen
    have hnf : PARSE_TABLE.find? (fun p => p.1 = esc) = none :=
      List.find?_eq_none.mpr (fun p hp => by simp [hnp p hp])
    unfold decodeEscape
    rw [hnf]
    rw [show ((none : Option (Str × Char)).map Prod.snd) = none from by simp]
    rw [if_neg hlen]
  refine ⟨by decide, by decide, ?_, ?_, hgen⟩
  · intro c hnp
    refine hgen ['\\', c] hnp ?_
    have h4 := utf8Size_le_four c
    have hb : ('\\' : Char).utf8Size = 1 := rfl
    simp only [utf8Len, List.map_cons, List.map_nil, List.sum_cons,
      List.sum_nil, hb]
    omega
  · intro ds h6 hall
    have hsz : ∀ d ∈ ds, d.utf8Size = 1 := fun d hd => (lowerHex_facts (hall d hd)).1
    have hfacts : ∀ d ∈ ds, ∃ v, hexDigitVal d = some v ∧ v < 16 :=
      fun d hd => (lowerHex_facts (hall d hd)).2.2
    have htl : ∀ p ∈ PARSE_TABLE, (p.1 : Str).length = 2 := by decide
    have hnf : PARSE_TABLE.find? (fun p => p.1 = ('\\' :: 'x' :: ds)) = none := by
      refine List.find?_eq_none.mpr (fun p hp => ?_)
      have hl2 := htl p hp
      simp only [decide_eq_true_eq]
      intro heq
      rw [heq] at hl2
      simp [h6] at hl2
    have hlen : utf8Len ('\\' :: 'x' :: ds) = 8 := by
      simp only [utf8Len, List.map_cons, List.sum_cons, sum_utf8_of_ones hsz, h6]
      rfl
    have hb : ('\\' : Char).utf8Size = 1 := rfl
    have hxs : ('x' : Char).utf8Size = 1 := rfl
    have hdrop : dropBytes 2 ('\\' :: 'x' :: ds) = ds := by
      simp [dropBytes, hb, hxs]
    unfold decodeEscape
    rw [hnf]
    rw [show ((none : Option (Str × Char)).map Prod.snd) = none from by simp]
    rw [if_pos hlen, hdrop]
    cases ds with
    | nil => simp at h6
    | cons a rest =>
      have hplus : a ≠ '+' := (lowerHex_facts (hall a (by simp))).2.1
      have hfsr : fromStrRadix16 (a :: rest) = some (hexValNat (a :: rest)) := by
        simp only [fromStrRadix16]
        rw [if_neg hplus]
        rw [if_neg (by simp)]
        unfold radixFoldAccum
        rw [radix_fold (a :: rest) 0 hfacts (by rw [h6]; norm_num)]
        rfl
      rw [hfsr]
      show (match charFromU32 (hexValNat (a :: rest)) with
            | none => Except.error ()
            | some character => Except.ok character) =
          (match charFromU32 (hexValNat (a :: rest)) with
            | some ch => Except.ok ch
            | none => Except.error ())
      cases charFromU32 (hexValNat (a :: rest)) <;> rfl

/-- Witness for C2: the lowercase-hex form resolves U+263A, and a two-char
sequence outside the table fails. -/
theorem c2_escape_resolution_witness :
    decodeEscape ['\\', 'x', '0', '0', '2', '6', '3', 'a'] = .ok '☺' ∧
    decodeEscape ['\\', 'p'] = .error () := by
  refine ⟨?_, ?_⟩
  · have h := (c2_escape_resolution).2.2.2.1 ['0', '0', '2', '6', '3', 'a']
      (by decide) (by decide)
    rw [h]
    decide
  · exact (c2_escape_resolution).2.2.1 'p' (by decide)


/-! ## The generated document (claim C5) -/

theorem lookupTree_insert_self (t : List (Option Str × List Str)) (k : Option Str)
    (line : Str) :
    lookupTree (treeInsert t k line) k = some ((lookupTree t k).getD [] ++ [line]) := by
  induction t with
  | nil => simp [treeInsert, lookupTree]
  | cons p t ih =>
    obtain ⟨k', v⟩ := p
    by_cases hk : k' = k
    · subst hk; simp [treeInsert, lookupTree]
    · simp [treeInsert, lookupTree, hk, ih]

theorem lookupTree_insert_other (t : List (Option Str × List Str))
    (k k' : Option Str) (line : Str) (h : k ≠ k') :
    lookupTree (treeInsert t k line) k' = lookupTree t k' := by
  induction t with
  | nil => simp [treeInsert, lookupTree, h]
  | cons p t ih =>
    obtain ⟨k0, v⟩ := p
    by_cases hk : k0 = k
    · subst hk; simp [treeInsert, lookupTree, h]
    · simp [treeInsert, lookupTree, hk, ih]

theorem linesFor_cons (k : Option Str) (e : Identifier × Value)
    (es : List (Identifier × Value)) :
    linesFor k (e :: es) =
      if e.1.sect = k then entryLine e :: linesFor k es else linesFor k es := by
  by_cases h : e.1.sect = k <;> simp [linesFor, List.filter_cons, h]

theorem hasKey_cons (k : Option Str) (e : Identifier × Value)
    (es : List (Identifier × Value)) :
    hasKey k (e :: es) = ((e.1.sect = k) || hasKey k es) := by
  simp [hasKey]

theorem lookupTree_feed (es : List (Identifier × Value)) :
    ∀ t (k : Option Str),
    lookupTree (es.foldl treeStep t) k =
      match lookupTree t k with
      | some v => some (v ++ linesFor k es)
      | none => if hasKey k es then some (linesFor k es) else none := by
  induction es with
  | nil =>
    intro t k
    cases h : lookupTree t k <;> simp [linesFor, hasKey, h]
  | cons e es ih =>
    intro t k
    rw [List.foldl_cons, ih (treeStep t e) k, linesFor_cons, hasKey_cons]
    by_cases hk : e.1.sect = k
    · rw [hk]
      unfold treeStep
      rw [hk, lookupTree_insert_self]
      cases h : lookupTree t k <;> simp [h]
    · unfold treeStep
      rw [lookupTree_insert_other t _ _ _ hk]
      cases h : lookupTree t k <;> simp [h, hk]

theorem keys_treeInsert (t : List (Option Str × List Str)) (k : Option Str)
    (line : Str) :
    (treeInsert t k line).map Prod.fst =
      if k ∈ t.map Prod.fst then t.map Prod.fst else t.map Prod.fst ++ [k] := by
  induction t with
  | nil => simp [treeInsert]
  | cons p t ih =>
    obtain ⟨k0, v⟩ := p
    by_cases hk : k0 = k
    · subst hk; simp [treeInsert]
    · have hne : ¬(k = k0) := fun h => hk h.symm
      simp only [treeInsert, hk, if_false, reduceIte, List.map_cons,
        List.mem_cons, hne, false_or, ih]
      by_cases hm : k ∈ t.map Prod.fst <;> simp [hm]

theorem keys_feed (es : List (Identifier × Value)) :
    ∀ t, (es.foldl treeStep t).map Prod.fst =
      (es.map (fun e => e.1.sect)).foldl
        (fun acc k => if k ∈ acc then acc else acc ++ [k]) (t.map Prod.fst) := by
  induction es with
  | nil => intro t; rfl
  | cons e es ih =>
    intro t
    rw [List.foldl_cons, List.map_cons, List.foldl_cons, ih]
    unfold treeStep
    rw [keys_treeInsert]

theorem mem_dedup_foldl (l : List (Option Str)) :
    ∀ (acc : List (Option Str)) (x : Option Str),
    (x ∈ l.foldl (fun acc k => if k ∈ acc then acc else acc ++ [k]) acc) ↔
      x ∈ acc ∨ x ∈ l := by
  induction l with
  | nil => intro acc x; simp
  | cons a l ih =>
    intro acc x
    rw [List.foldl_cons]
    by_cases hm : a ∈ acc
    · rw [if_pos hm, ih]
      constructor
      · rintro (h | h)
        · exact Or.inl h
        · exact Or.inr (by simp [h])
      · rintro (h | h)
        · exact Or.inl h
        · rcases List.mem_cons.mp h with rfl | h
          · exact Or.inl hm
          · exact Or.inr h
    · rw [if_neg hm, ih]
      simp only [List.mem_append, List.mem_singleton, List.mem_cons]
      tauto

theorem feed_tree (es : List (Identifier × Value)) :
    (Dumper.feed es).tree = es.foldl treeStep [] := by
  have h : ∀ (d : Dumper),
      (es.foldl (fun d e => d.dump e.1 e.2) d).tree = es.foldl treeStep d.tree := by
    induction es with
    | nil => intro d; rfl
    | cons e es ih => intro d; rw [List.foldl_cons, List.foldl_cons, ih]; rfl
  exact h Dumper.new

theorem linesFor_eq_nil_iff (k : Option Str) (es : List (Identifier × Value)) :
    linesFor k es = [] ↔ hasKey k es = false := by
  simp only [linesFor, List.map_eq_nil_iff, List.filter_eq_nil_iff, hasKey,
    List.any_eq_false]

theorem mem_dedupFirst (l : List (Option Str)) (x : Option Str) :
    x ∈ dedupFirst l ↔ x ∈ l := by
  unfold dedupFirst
  rw [mem_dedup_foldl]
  simp

theorem flatMap_congr_left {α β : Type} {l : List α} {f g : α → List β}
    (h : ∀ a ∈ l, f a = g a) : l.flatMap f = l.flatMap g := by
  induction l with
  | nil => rfl
  | cons a l ih =>
    simp only [List.flatMap_cons, h a (by simp),
      ih (fun x hx => h x (by simp [hx]))]

/-- Claim C5, as amended: the generated document lists the global-section
entries first, one per line as `name=encoded_value`, sorted lexicographically
by the whole line text (byte order, which is what `Vec<String>::sort` does),
followed by a blank line when a global entry exists, then each named section
in ascending order of section name, each preceded by its `[section]` header,
with the section's entries likewise sorted by whole line text; the final
newline is removed. Sorting is by the full `name=encoded_value` line, not by
identifier name: the two differ when one name is a prefix of another
followed by a character that compares before `=`. -/
theorem c5_generate_layout (entries : List (Identifier × Value)) :
    (Dumper.feed entries).generate = generatedByLine entries := by
  unfold Dumper.generate generatedByLine
  rw [feed_tree]
  have hlookup := lookupTree_feed entries [] 
  have hkeys : (entries.foldl treeStep []).map Prod.fst =
      dedupFirst (entries.map (fun e => e.1.sect)) := by
    rw [keys_feed]
    unfold dedupFirst
    rfl
  have hsections : (entries.foldl treeStep []).filterMap Prod.fst =
      sectionNamesOf entries := by
    have h1 : (entries.foldl treeStep []).filterMap Prod.fst =
        ((entries.foldl treeStep []).map Prod.fst).filterMap id := by
      rw [List.filterMap_map]
      rfl
    rw [h1, hkeys]
    rfl
  have hglobal : lookupTree (entries.foldl treeStep []) none =
      if hasKey none entries then some (linesFor none entries) else none := by
    rw [hlookup none]
    rfl
  have hglobals_def : (entries.filter (fun e => e.1.sect = none)).map entryLine =
      linesFor none entries := rfl
  have hglobal_part :
      (match lookupTree (entries.foldl treeStep []) none with
        | some val => joinLines (sortStrs val) ++ ['\n']
        | none => ([] : Str)) =
      (if (entries.filter (fun e => e.1.sect = none)).map entryLine = [] then ([] : Str)
       else joinLines (sortStrs ((entries.filter (fun e => e.1.sect = none)).map entryLine)) ++ ['\n']) := by
    rw [hglobal, hglobals_def]
    by_cases hk : hasKey none entries
    · rw [if_pos hk, if_neg]
      intro hcon
      rw [linesFor_eq_nil_iff] at hcon
      rw [hcon] at hk
      cases hk
    · rw [if_neg hk, if_pos]
      rw [linesFor_eq_nil_iff]
      simpa using hk
  have hsec_lines : ∀ s ∈ sortStrs (sectionNamesOf entries),
      (lookupTree (entries.foldl treeStep []) (some s)).getD [] =
        (entries.filter (fun e => e.1.sect = some s)).map entryLine := by
    intro s hs
    have hmem : s ∈ sectionNamesOf entries :=
      (List.perm_insertionSort _ _).mem_iff.mp hs
    have hkey : hasKey (some s) entries = true := by
      simp only [sectionNamesOf, List.mem_filterMap, id] at hmem
      obtain ⟨k, hk, hks⟩ := hmem
      subst hks
      have hmm := (mem_dedupFirst (entries.map (fun e => e.1.sect)) (some s)).mp hk
      simp only [List.mem_map] at hmm
      obtain ⟨e, he, hes⟩ := hmm
      exact List.any_eq_true.mpr ⟨e, he, by simp [hes]⟩
    rw [hlookup (some s)]
    have h0 : lookupTree [] (some s) = none := rfl
    simp only [h0, hkey, if_true]
    rfl
  rw [hsections, hglobal_part]
  congr 1
  congr 1
  exact flatMap_congr_left (fun s hs => by rw [hsec_lines s hs])

/-- Claim C5, counterexample: feeding the global entries `a = "x"` and
`a0 = "y"`, the generated document is `a0=y` then `a=x` (whole lines are
sorted, and `'0' < '='` in byte order), not the claimed by-identifier-name
order `a=x` then `a0=y`. -/
theorem c5_counterexample :
    (Dumper.feed [(⟨none, ['a']⟩, .Raw ['x']), (⟨none, ['a', '0']⟩, .Raw ['y'])]).generate =
      ['a', '0', '=', 'y', '\n', 'a', '=', 'x', '\n'] ∧
    (Dumper.feed [(⟨none, ['a']⟩, .Raw ['x']), (⟨none, ['a', '0']⟩, .Raw ['y'])]).generate ≠
      generatedByName [(⟨none, ['a']⟩, .Raw ['x']), (⟨none, ['a', '0']⟩, .Raw ['y'])] := by
  decide

end Mininip

